import Mathlib

/-!
# alidns-webhook: name resolution and record reconciliation

A shallow embedding of the two pieces of logic of the webhook:

* `extractRR` (with `util.UnFqdn` and `strings.Index`), from `main.go`;
* `Client.DeleteAndPresent`, from `alidns/client.go`, together with the
  `Present` / `CleanUp` methods of the solver that call it;
* two calls of `Present` in flight on the one solver, as a step relation over
  the field `aliDNSClient` that each call assigns and then calls through.

Go strings are embedded as `String`; indices are positions in the character
list. For valid UTF-8 text byte positions of a substring match and of a
trailing `'.'` fall on character boundaries, so slicing agrees.

A Go `error` is embedded as `Option String` (`none` is `nil`), the string
being the text of `Error()`.

The SDK client `*dns.Client` is embedded as a record of three state-passing
operations over an arbitrary provider state `σ`. Responses are taken to be
well formed (the pointer fields that the code dereferences are non-nil).
-/

namespace AlidnsWebhook

/-! ## Strings and errors -/

/-- Worker of `Index`: position of the first occurrence of `substr` in the
remaining text, counted from `i`, or `-1`. -/
def indexFrom (substr : List Char) : List Char → Nat → Int
  | [], i => if substr = [] then (i : Int) else -1
  | c :: s, i =>
    if substr.isPrefixOf (c :: s) then (i : Int) else indexFrom substr s (i + 1)

/-- The library function `strings.Index(s, substr)`: the index of the first
instance of `substr` in `s`, or `-1` if `substr` is not present in `s`. -/
def Index (s substr : String) : Int :=
  indexFrom substr.data s.data 0

/-- The library function `util.UnFqdn(name)` of cert-manager: drops one
trailing dot.
```go
n := len(name)
if n != 0 && name[n-1] == '.' { return name[:n-1] }
return name
``` -/
def UnFqdn (name : String) : String :=
  let n := name.length
  if n ≠ 0 ∧ name.data.getLast? = some '.' then ⟨name.data.take (n - 1)⟩ else name

/-- The function `extractRR` of `main.go`.
```go
name := util.UnFqdn(fqdn)
if idx := strings.Index(name, "."+domain); idx != -1 { return name[:idx] }
return name
``` -/
def extractRR (fqdn domain : String) : String :=
  let name := UnFqdn fqdn
  let idx := Index name ("." ++ domain)
  if idx ≠ -1 then ⟨name.data.take idx.toNat⟩ else name

/-- The text of `errors.Wrap(err, message).Error()`. -/
def Wrap (err message : String) : String :=
  message ++ ": " ++ err

/-! ## The provider client -/

/-- The constant `recordTypeTxt`. -/
def recordTypeTxt : String := "TXT"

/-- One element of `result.Body.DomainRecords.Record`, with the fields that
the code reads. -/
structure Record where
  RecordId : String
  DomainName : String
  RR : String
  Value : String
deriving DecidableEq, Repr

/-- The request `dns.DescribeDomainRecordsRequest`, fields as set by the code. -/
structure DescribeDomainRecordsRequest where
  DomainName : String
  RRKeyWord : String
  TypeKeyWord : String
deriving DecidableEq, Repr

/-- The request `dns.DeleteDomainRecordRequest`. -/
structure DeleteDomainRecordRequest where
  RecordId : String
deriving DecidableEq, Repr

/-- The request `dns.AddDomainRecordRequest`; `Type_` is its field `Type`. -/
structure AddDomainRecordRequest where
  DomainName : String
  RR : String
  Type_ : String
  Value : String
deriving DecidableEq, Repr

/-- The three operations of `*dns.Client` used by the code, over a provider
state `σ`. Each returns its response or an error, and the next state. -/
structure Client (σ : Type) where
  DescribeDomainRecords : DescribeDomainRecordsRequest → σ → Except String (List Record) × σ
  DeleteDomainRecord : DeleteDomainRecordRequest → σ → Except String Unit × σ
  AddDomainRecord : AddDomainRecordRequest → σ → Except String String × σ

/-- The condition of the `if` in the loop of `DeleteAndPresent`:
`*v.DomainName == domainName && *v.RR == rr && *v.Value == value`. -/
def exactMatch (domainName rr value : String) (v : Record) : Bool :=
  v.DomainName == domainName && v.RR == rr && v.Value == value

/-- How the `for ... range` loop of `DeleteAndPresent` ends: with a `return`
from inside the body, or by running off the end of the slice. -/
inductive LoopExit (σ : Type) where
  | returned (err : Option String) (s : σ)
  | done (s : σ)

/-- The loop `for _, v := range result.Body.DomainRecords.Record` of
`DeleteAndPresent`. -/
def rangeLoop {σ : Type} (c : Client σ) (action domainName rr value : String) :
    List Record → σ → LoopExit σ
  | [], s => .done s
  | v :: rest, s =>
    if exactMatch domainName rr value v then
      if action = "Present" then .returned none s
      else
        match c.DeleteDomainRecord ⟨v.RecordId⟩ s with
        | (.error err, s1) =>
          .returned (some (Wrap err
            ("DeleteDomainRecord domain(" ++ domainName ++ ") record(" ++ rr ++ ") failed"))) s1
        | (.ok _, s1) => rangeLoop c action domainName rr value rest s1
    else rangeLoop c action domainName rr value rest s

/-- The method `Client.DeleteAndPresent` of `alidns/client.go`: the returned
error and the provider state it leaves. -/
def DeleteAndPresent {σ : Type} (c : Client σ) (action domainName rr value : String)
    (s : σ) : Option String × σ :=
  match c.DescribeDomainRecords ⟨domainName, rr, recordTypeTxt⟩ s with
  | (.error err, s1) =>
    (some (Wrap err
      ("DescribeDomainRecords domain(" ++ domainName ++ ") record(" ++ rr ++ ") failed")), s1)
  | (.ok records, s1) =>
    match rangeLoop c action domainName rr value records s1 with
    | .returned err s2 => (err, s2)
    | .done s2 =>
      if action = "Present" then
        match c.AddDomainRecord ⟨domainName, rr, recordTypeTxt, value⟩ s2 with
        | (.error err, s3) =>
          (some (Wrap err
            ("AddDomainRecord domain(" ++ domainName ++ ") record(" ++ rr ++ ") failed")), s3)
        | (.ok _, s3) => (none, s3)
      else (none, s2)

/-! ## The solver -/

/-- The fields of `v1alpha1.ChallengeRequest` that the solver passes on. -/
structure ChallengeRequest where
  Action : String
  ResolvedFQDN : String
  ResolvedZone : String
  Key : String
deriving DecidableEq, Repr

/-- The method `aliDNSProviderSolver.Present` of `main.go`. The construction
of the client from the cluster secrets, `initDNSClient`, is a parameter. -/
def Present {σ : Type} (initDNSClient : ChallengeRequest → Except String (Client σ))
    (ch : ChallengeRequest) (s : σ) : Option String × σ :=
  match initDNSClient ch with
  | .error err => (some ("error initializing DNS client: " ++ err), s)
  | .ok client =>
    let unFqdn := UnFqdn ch.ResolvedZone
    let rr := extractRR ch.ResolvedFQDN unFqdn
    DeleteAndPresent client ch.Action unFqdn rr ch.Key s

/-- The method `aliDNSProviderSolver.CleanUp` of `main.go`. -/
def CleanUp {σ : Type} (initDNSClient : ChallengeRequest → Except String (Client σ))
    (ch : ChallengeRequest) (s : σ) : Option String × σ :=
  match initDNSClient ch with
  | .error err => (some (Wrap err "error initializing DNS client"), s)
  | .ok client =>
    let unFqdn := UnFqdn ch.ResolvedZone
    let rr := extractRR ch.ResolvedFQDN unFqdn
    match DeleteAndPresent client ch.Action unFqdn rr ch.Key s with
    | (some err, s1) => (some (Wrap err "error deleting record"), s1)
    | (none, s1) => (none, s1)

/-! ## Observing the provider calls -/

/-- A call issued to the provider. -/
inductive Call where
  | Describe (req : DescribeDomainRecordsRequest)
  | Delete (req : DeleteDomainRecordRequest)
  | Add (req : AddDomainRecordRequest)
deriving DecidableEq, Repr

/-- A call together with whether the provider answered without error. -/
structure Event where
  call : Call
  ok : Bool
deriving DecidableEq, Repr

/-- Whether a response is a success. -/
def succeeded {α : Type} : Except String α → Bool
  | .ok _ => true
  | .error _ => false

/-- The client `c` with a log: every call is appended, with its outcome, to
the list carried next to the provider state. -/
def traced {σ : Type} (c : Client σ) : Client (σ × List Event) where
  DescribeDomainRecords req st :=
    let r := c.DescribeDomainRecords req st.1
    (r.1, (r.2, st.2 ++ [⟨.Describe req, succeeded r.1⟩]))
  DeleteDomainRecord req st :=
    let r := c.DeleteDomainRecord req st.1
    (r.1, (r.2, st.2 ++ [⟨.Delete req, succeeded r.1⟩]))
  AddDomainRecord req st :=
    let r := c.AddDomainRecord req st.1
    (r.1, (r.2, st.2 ++ [⟨.Add req, succeeded r.1⟩]))

/-- The provider state of a loop exit. -/
def LoopExit.state {σ : Type} : LoopExit σ → σ
  | .returned _ s => s
  | .done s => s

/-- A loop exit of a logging client without its log. -/
def LoopExit.unlogged {σ : Type} : LoopExit (σ × List Event) → LoopExit σ
  | .returned err st => .returned err st.1
  | .done st => .done st.1

/-- The event of a successful `DeleteDomainRecord` of the record `r`. -/
def deleted (r : Record) : Event :=
  ⟨.Delete ⟨r.RecordId⟩, true⟩

/-! ## A provider holding a record set -/

/-- The state of the record-set provider: the TXT records it stores and the
number of calls it has served. -/
structure Store where
  records : List Record
  calls : Nat
deriving DecidableEq, Repr

/-- Modelled from the spec: the remote provider behind `*dns.Client` (the
Alibaba Cloud DNS service and its SDK, which are not part of the repository),
as the capability of section 6: `listTXTRecords` returns the stored records
that pass a keyword filter `q` (which may over-match), `deleteRecord` removes
the record with the given identifier, `createTXTRecord` stores a new record
under the identifier `fresh` picks. The call numbered `k` fails with `e` when
`fault k = some e`; a failing call changes no record. -/
def storeClient (q : DescribeDomainRecordsRequest → Record → Bool)
    (fresh : List Record → String) (fault : Nat → Option String) : Client Store where
  DescribeDomainRecords req s :=
    match fault s.calls with
    | some e => (.error e, ⟨s.records, s.calls + 1⟩)
    | none => (.ok (s.records.filter (q req)), ⟨s.records, s.calls + 1⟩)
  DeleteDomainRecord req s :=
    match fault s.calls with
    | some e => (.error e, ⟨s.records, s.calls + 1⟩)
    | none => (.ok (), ⟨s.records.filter (fun r => r.RecordId ≠ req.RecordId), s.calls + 1⟩)
  AddDomainRecord req s :=
    match fault s.calls with
    | some e => (.error e, ⟨s.records, s.calls + 1⟩)
    | none =>
      (.ok (fresh s.records),
        ⟨s.records ++ [⟨fresh s.records, req.DomainName, req.RR, req.Value⟩], s.calls + 1⟩)

/-- A keyword filter for the listing of `storeClient`: the records of the
queried domain whose `RR` contains the keyword. It lets through more than the
records whose `RR` equals the keyword. -/
def keywordFilter (req : DescribeDomainRecordsRequest) (r : Record) : Bool :=
  r.DomainName == req.DomainName && Index r.RR req.RRKeyWord != -1

/-- A record set of the zone `example.com`: the value `abc` twice under
`_acme-challenge`, another value under the same name, and `abc` under a name
that contains `_acme-challenge`. -/
def exampleRecords : List Record :=
  [⟨"1", "example.com", "_acme-challenge", "abc"⟩,
   ⟨"2", "example.com", "_acme-challenge", "xyz"⟩,
   ⟨"3", "example.com", "_acme-challenge", "abc"⟩,
   ⟨"4", "example.com", "_acme-challenge-2", "abc"⟩]

/-- A provider that never fails, lists by `keywordFilter` and assigns the
identifier `5` to a new record. -/
def exampleClient : Client Store :=
  storeClient keywordFilter (fun _ => "5") (fun _ => none)

/-- The number of stored records that carry `(domainName, rr, value)`. -/
def matching (domainName rr value : String) (records : List Record) : Nat :=
  (records.filter
    (fun r => decide (r.DomainName = domainName ∧ r.RR = rr ∧ r.Value = value))).length

/-! ## Calls of `Present` in flight on one solver -/

/-- The struct `aliDNSProviderSolver` of `main.go`, with its field
`aliDNSClient`, which `Present` and `CleanUp` assign and then call through.
The solver that `main` registers serves every request; its field is `nil`
(`none`) at the start. -/
structure aliDNSProviderSolver (σ : Type) where
  aliDNSClient : Option (Client σ)

/-- How far a call of `Present` has come: entered, past the assignment
`c.aliDNSClient = client`, or ended, by a `return` or by the dereference of a
`nil` client. -/
inductive Stage where
  | entered
  | assigned
  | returned (err : Option String)
  | panicked
deriving DecidableEq, Repr

/-- The first part of the method `Present`: the call of `initDNSClient`, the
`return` on its error, and the assignment to the field of the solver.
```go
client, err := c.initDNSClient(ch)
if err != nil { return fmt.Errorf("error initializing DNS client: %v", err) }
c.aliDNSClient = client
``` -/
def PresentAssign {σ : Type} (initDNSClient : ChallengeRequest → Except String (Client σ))
    (ch : ChallengeRequest) (c : aliDNSProviderSolver σ) : Stage × aliDNSProviderSolver σ :=
  match initDNSClient ch with
  | .error err => (.returned (some ("error initializing DNS client: " ++ err)), c)
  | .ok client => (.assigned, ⟨some client⟩)

/-- The second part of the method `Present`: the client is read from the
field of the solver.
```go
unFqdn := util.UnFqdn(ch.ResolvedZone)
rr := extractRR(ch.ResolvedFQDN, unFqdn)
return c.aliDNSClient.DeleteAndPresent(string(ch.Action), unFqdn, rr, ch.Key)
``` -/
def PresentCall {σ : Type} (ch : ChallengeRequest) (c : aliDNSProviderSolver σ) (s : σ) :
    Stage × σ :=
  match c.aliDNSClient with
  | none => (.panicked, s)
  | some client =>
    let unFqdn := UnFqdn ch.ResolvedZone
    let rr := extractRR ch.ResolvedFQDN unFqdn
    let r := DeleteAndPresent client ch.Action unFqdn rr ch.Key s
    (.returned r.1, r.2)

/-- Two calls of `Present` in flight on one solver: the solver, the provider
state, and the stage of each call. -/
structure Flight (σ : Type) where
  solver : aliDNSProviderSolver σ
  provider : σ
  first : Stage
  second : Stage

/-- One step of one of the two calls (`second = false`: the call for `chA`,
`second = true`: the call for `chB`): its first part if it has just entered,
its second part if it is past the assignment, nothing if it has ended. -/
def advance {σ : Type} (initDNSClient : ChallengeRequest → Except String (Client σ))
    (chA chB : ChallengeRequest) (second : Bool) (f : Flight σ) : Flight σ :=
  if second then
    match f.second with
    | .entered =>
      let r := PresentAssign initDNSClient chB f.solver
      ⟨r.2, f.provider, f.first, r.1⟩
    | .assigned =>
      let r := PresentCall chB f.solver f.provider
      ⟨f.solver, r.2, f.first, r.1⟩
    | _ => f
  else
    match f.first with
    | .entered =>
      let r := PresentAssign initDNSClient chA f.solver
      ⟨r.2, f.provider, r.1, f.second⟩
    | .assigned =>
      let r := PresentCall chA f.solver f.provider
      ⟨f.solver, r.2, r.1, f.second⟩
    | _ => f

/-- An interleaving of the two calls: the steps are taken in the order of the
list, each entry naming the call that moves. -/
def interleave {σ : Type} (initDNSClient : ChallengeRequest → Except String (Client σ))
    (chA chB : ChallengeRequest) (order : List Bool) (f : Flight σ) : Flight σ :=
  order.foldl (fun g second => advance initDNSClient chA chB second g) f

/-- A client of the first of two provider accounts: `c` acting on the first
record set. -/
def inAccountOne (c : Client Store) : Client (Store × Store) where
  DescribeDomainRecords req st :=
    let r := c.DescribeDomainRecords req st.1
    (r.1, (r.2, st.2))
  DeleteDomainRecord req st :=
    let r := c.DeleteDomainRecord req st.1
    (r.1, (r.2, st.2))
  AddDomainRecord req st :=
    let r := c.AddDomainRecord req st.1
    (r.1, (r.2, st.2))

/-- A client of the second of two provider accounts: `c` acting on the second
record set. -/
def inAccountTwo (c : Client Store) : Client (Store × Store) where
  DescribeDomainRecords req st :=
    let r := c.DescribeDomainRecords req st.2
    (r.1, (st.1, r.2))
  DeleteDomainRecord req st :=
    let r := c.DeleteDomainRecord req st.2
    (r.1, (st.1, r.2))
  AddDomainRecord req st :=
    let r := c.AddDomainRecord req st.2
    (r.1, (st.1, r.2))

/-- A provider account that never fails, lists by `keywordFilter` and numbers
its records `1`, `2`, and so on. -/
def numberingClient : Client Store :=
  storeClient keywordFilter (fun records => toString (records.length + 1)) (fun _ => none)

/-- An `initDNSClient` for two requests with the credentials of two accounts.
The credentials of a request come from its `Config` and `ResourceNamespace`,
which are not among the embedded fields; here the request with the key `v1`
carries those of the first account and any other those of the second. -/
def twoAccounts (ch : ChallengeRequest) : Except String (Client (Store × Store)) :=
  if ch.Key = "v1" then .ok (inAccountOne numberingClient)
  else .ok (inAccountTwo numberingClient)

/-- The request `Present` of the value `v1` for `_acme-challenge.example.com.`. -/
def requestA : ChallengeRequest :=
  ⟨"Present", "_acme-challenge.example.com.", "example.com.", "v1"⟩

/-- The request `Present` of the value `v2` for the same name. -/
def requestB : ChallengeRequest :=
  ⟨"Present", "_acme-challenge.example.com.", "example.com.", "v2"⟩

/-- Both calls entered, the field of the solver `nil`, both accounts empty. -/
def takeoff : Flight (Store × Store) :=
  ⟨⟨none⟩, (⟨[], 0⟩, ⟨[], 0⟩), .entered, .entered⟩

/-! ## The reconciler over an arbitrary client -/

theorem exactMatch_iff (domainName rr value : String) (v : Record) :
    exactMatch domainName rr value v = true ↔
      v.DomainName = domainName ∧ v.RR = rr ∧ v.Value = value := by
  simp [exactMatch, and_assoc]

theorem exactMatch_eq_decide (domainName rr value : String) :
    exactMatch domainName rr value =
      fun v => decide (v.DomainName = domainName ∧ v.RR = rr ∧ v.Value = value) := by
  funext v
  rw [Bool.eq_iff_iff, exactMatch_iff]
  simp

/-- With the action `"Present"` the loop calls nothing: it returns `nil` at
the first exact match and otherwise runs to the end. -/
theorem rangeLoop_present {σ : Type} (c : Client σ) (domainName rr value : String) :
    ∀ (records : List Record) (s : σ),
      rangeLoop c "Present" domainName rr value records s =
        if records.any (exactMatch domainName rr value) then .returned none s else .done s := by
  intro records
  induction records with
  | nil => intro s; simp [rangeLoop]
  | cons v rest ih =>
    intro s
    cases hm : exactMatch domainName rr value v with
    | true => simp [rangeLoop, hm]
    | false => simp [rangeLoop, hm, ih]

/-- The loop takes the same course for every action other than `"Present"`. -/
theorem rangeLoop_not_present {σ : Type} (c : Client σ) (action domainName rr value : String)
    (h : action ≠ "Present") :
    ∀ (records : List Record) (s : σ),
      rangeLoop c action domainName rr value records s =
        rangeLoop c "CleanUp" domainName rr value records s := by
  intro records
  induction records with
  | nil => intro s; simp [rangeLoop]
  | cons v rest ih =>
    intro s
    cases hm : exactMatch domainName rr value v with
    | false => simp [rangeLoop, hm, ih]
    | true =>
      rcases hd : c.DeleteDomainRecord ⟨v.RecordId⟩ s with ⟨res, s1⟩
      cases res with
      | error e => simp [rangeLoop, hm, h, hd]
      | ok u => simp [rangeLoop, hm, h, hd, ih]

/-- `DeleteAndPresent` takes the same course for every action other than
`"Present"`. -/
theorem DeleteAndPresent_not_present {σ : Type} (c : Client σ)
    (action domainName rr value : String) (s : σ) (h : action ≠ "Present") :
    DeleteAndPresent c action domainName rr value s =
      DeleteAndPresent c "CleanUp" domainName rr value s := by
  simp [DeleteAndPresent, rangeLoop_not_present c action domainName rr value h, h]

theorem succeeded_ok {α : Type} (a : α) : succeeded (Except.ok a : Except String α) = true := rfl

theorem succeeded_error {α : Type} (e : String) :
    succeeded (Except.error e : Except String α) = false := rfl

theorem traced_describe {σ : Type} (c : Client σ) (req : DescribeDomainRecordsRequest)
    (s : σ) (log : List Event) :
    (traced c).DescribeDomainRecords req (s, log) =
      ((c.DescribeDomainRecords req s).1, ((c.DescribeDomainRecords req s).2,
        log ++ [⟨.Describe req, succeeded (c.DescribeDomainRecords req s).1⟩])) := rfl

theorem traced_delete {σ : Type} (c : Client σ) (req : DeleteDomainRecordRequest)
    (s : σ) (log : List Event) :
    (traced c).DeleteDomainRecord req (s, log) =
      ((c.DeleteDomainRecord req s).1, ((c.DeleteDomainRecord req s).2,
        log ++ [⟨.Delete req, succeeded (c.DeleteDomainRecord req s).1⟩])) := rfl

theorem traced_add {σ : Type} (c : Client σ) (req : AddDomainRecordRequest)
    (s : σ) (log : List Event) :
    (traced c).AddDomainRecord req (s, log) =
      ((c.AddDomainRecord req s).1, ((c.AddDomainRecord req s).2,
        log ++ [⟨.Add req, succeeded (c.AddDomainRecord req s).1⟩])) := rfl

/-- The log does not influence the loop. -/
theorem rangeLoop_traced_unlogged {σ : Type} (c : Client σ)
    (action domainName rr value : String) :
    ∀ (records : List Record) (s : σ) (log : List Event),
      (rangeLoop (traced c) action domainName rr value records (s, log)).unlogged =
        rangeLoop c action domainName rr value records s := by
  intro records
  induction records with
  | nil => intro s log; simp [rangeLoop, LoopExit.unlogged]
  | cons v rest ih =>
    intro s log
    cases hm : exactMatch domainName rr value v with
    | false => simp [rangeLoop, hm, ih]
    | true =>
      by_cases ha : action = "Present"
      · simp [rangeLoop, hm, ha, LoopExit.unlogged]
      · rcases hd : c.DeleteDomainRecord ⟨v.RecordId⟩ s with ⟨res, s1⟩
        cases res with
        | error e => simp [rangeLoop, hm, ha, hd, traced_delete, LoopExit.unlogged]
        | ok u => simp [rangeLoop, hm, ha, hd, traced_delete, ih]

/-- The log does not influence `DeleteAndPresent`: the logging client returns
the same error and leaves the same provider state. -/
theorem DeleteAndPresent_traced_unlogged {σ : Type} (c : Client σ)
    (action domainName rr value : String) (s : σ) (log : List Event) :
    ((DeleteAndPresent (traced c) action domainName rr value (s, log)).1,
      (DeleteAndPresent (traced c) action domainName rr value (s, log)).2.1) =
      DeleteAndPresent c action domainName rr value s := by
  rcases hq : c.DescribeDomainRecords ⟨domainName, rr, recordTypeTxt⟩ s with ⟨res, s1⟩
  cases res with
  | error e => simp [DeleteAndPresent, traced_describe, hq]
  | ok records =>
    have hl := rangeLoop_traced_unlogged c action domainName rr value records s1
      (log ++ [⟨.Describe ⟨domainName, rr, recordTypeTxt⟩, true⟩])
    simp only [DeleteAndPresent, traced_describe, hq, succeeded_ok]
    rw [← hl]
    clear hl
    generalize rangeLoop (traced c) action domainName rr value records
      (s1, log ++ [⟨.Describe ⟨domainName, rr, recordTypeTxt⟩, true⟩]) = ex
    rcases ex with ⟨err, ⟨st, lg⟩⟩ | ⟨⟨st, lg⟩⟩
    · simp [LoopExit.unlogged]
    · simp only [LoopExit.unlogged]
      by_cases ha : action = "Present"
      · rcases hadd : c.AddDomainRecord ⟨domainName, rr, recordTypeTxt, value⟩ st with ⟨res, s3⟩
        cases res with
        | error e => simp [ha, hadd, traced_add]
        | ok u => simp [ha, hadd, traced_add]
      · simp [ha]

/-- The calls of the loop for an action other than `"Present"`: a successful
delete for each exact match in turn, up to the end of the list or up to the
first delete that fails, which is the last call. -/
theorem rangeLoop_cleanup_trace {σ : Type} (c : Client σ)
    (action domainName rr value : String) (h : action ≠ "Present") :
    ∀ (records : List Record) (s : σ) (log : List Event),
      ∃ pre post, records.filter (exactMatch domainName rr value) = pre ++ post ∧
        ((post = [] ∧ ∃ s2, rangeLoop (traced c) action domainName rr value records (s, log) =
            .done (s2, log ++ pre.map deleted)) ∨
         (∃ r rest e s2, post = r :: rest ∧
            rangeLoop (traced c) action domainName rr value records (s, log) =
              .returned (some (Wrap e
                ("DeleteDomainRecord domain(" ++ domainName ++ ") record(" ++ rr ++ ") failed")))
                (s2, log ++ pre.map deleted ++ [⟨.Delete ⟨r.RecordId⟩, false⟩]))) := by
  intro records
  induction records with
  | nil =>
    intro s log
    exact ⟨[], [], by simp, Or.inl ⟨rfl, s, by simp [rangeLoop]⟩⟩
  | cons v rest ih =>
    intro s log
    cases hm : exactMatch domainName rr value v with
    | false =>
      obtain ⟨pre, post, hf, hc⟩ := ih s log
      refine ⟨pre, post, by simp [List.filter_cons, hm, hf], ?_⟩
      simpa [rangeLoop, hm] using hc
    | true =>
      rcases hd : c.DeleteDomainRecord ⟨v.RecordId⟩ s with ⟨res, s1⟩
      cases res with
      | error e =>
        refine ⟨[], v :: rest.filter (exactMatch domainName rr value),
          by simp [List.filter_cons, hm], Or.inr ⟨v, _, e, s1, rfl, ?_⟩⟩
        simp [rangeLoop, hm, h, traced_delete, hd, succeeded_error]
      | ok u =>
        obtain ⟨pre, post, hf, hc⟩ := ih s1 (log ++ [deleted v])
        refine ⟨v :: pre, post, by simp [List.filter_cons, hm, hf], ?_⟩
        have hstep : rangeLoop (traced c) action domainName rr value (v :: rest) (s, log) =
            rangeLoop (traced c) action domainName rr value rest (s1, log ++ [deleted v]) := by
          simp [rangeLoop, hm, h, traced_delete, hd, succeeded_ok, deleted]
        rw [hstep]
        simpa [List.append_assoc] using hc

/-- A failing listing query: the error is returned and nothing else is called. -/
theorem DeleteAndPresent_describe_error {σ : Type} (c : Client σ)
    (action domainName rr value : String) (s s1 : σ) (log : List Event) (e : String)
    (hq : c.DescribeDomainRecords ⟨domainName, rr, recordTypeTxt⟩ s = (.error e, s1)) :
    DeleteAndPresent (traced c) action domainName rr value (s, log) =
      (some (Wrap e
        ("DescribeDomainRecords domain(" ++ domainName ++ ") record(" ++ rr ++ ") failed")),
        (s1, log ++ [⟨.Describe ⟨domainName, rr, recordTypeTxt⟩, false⟩])) := by
  simp [DeleteAndPresent, traced_describe, hq, succeeded_error]

/-- `"Present"` with an exact match among the listed records: `nil` is
returned after the listing query alone. -/
theorem DeleteAndPresent_present_found {σ : Type} (c : Client σ)
    (domainName rr value : String) (s s1 : σ) (log : List Event) (records : List Record)
    (hq : c.DescribeDomainRecords ⟨domainName, rr, recordTypeTxt⟩ s = (.ok records, s1))
    (hm : records.any (exactMatch domainName rr value) = true) :
    DeleteAndPresent (traced c) "Present" domainName rr value (s, log) =
      (none, (s1, log ++ [⟨.Describe ⟨domainName, rr, recordTypeTxt⟩, true⟩])) := by
  simp [DeleteAndPresent, traced_describe, hq, succeeded_ok, rangeLoop_present, hm]

/-- `"Present"` with no exact match among the listed records: the listing
query is followed by one `AddDomainRecord`, whose outcome decides the result. -/
theorem DeleteAndPresent_present_absent {σ : Type} (c : Client σ)
    (domainName rr value : String) (s s1 : σ) (log : List Event) (records : List Record)
    (hq : c.DescribeDomainRecords ⟨domainName, rr, recordTypeTxt⟩ s = (.ok records, s1))
    (hm : records.any (exactMatch domainName rr value) = false) :
    DeleteAndPresent (traced c) "Present" domainName rr value (s, log) =
      ((match (c.AddDomainRecord ⟨domainName, rr, recordTypeTxt, value⟩ s1).1 with
        | .error e => some (Wrap e
            ("AddDomainRecord domain(" ++ domainName ++ ") record(" ++ rr ++ ") failed"))
        | .ok _ => none),
       ((c.AddDomainRecord ⟨domainName, rr, recordTypeTxt, value⟩ s1).2,
        log ++ [⟨.Describe ⟨domainName, rr, recordTypeTxt⟩, true⟩,
          ⟨.Add ⟨domainName, rr, recordTypeTxt, value⟩,
            succeeded (c.AddDomainRecord ⟨domainName, rr, recordTypeTxt, value⟩ s1).1⟩])) := by
  rcases hadd : c.AddDomainRecord ⟨domainName, rr, recordTypeTxt, value⟩ s1 with ⟨res, s3⟩
  cases res with
  | error e =>
    simp [DeleteAndPresent, traced_describe, hq, succeeded_ok, rangeLoop_present, hm,
      traced_add, hadd, succeeded_error]
  | ok u =>
    simp [DeleteAndPresent, traced_describe, hq, succeeded_ok, rangeLoop_present, hm,
      traced_add, hadd]

/-- An action other than `"Present"` after a successful listing query: the
calls are the query and the deletes of `rangeLoop_cleanup_trace`; the result
is `nil` exactly when every exact match was deleted. -/
theorem DeleteAndPresent_cleanup_trace {σ : Type} (c : Client σ)
    (action domainName rr value : String) (h : action ≠ "Present")
    (s s1 : σ) (log : List Event) (records : List Record)
    (hq : c.DescribeDomainRecords ⟨domainName, rr, recordTypeTxt⟩ s = (.ok records, s1)) :
    ∃ pre post, records.filter (exactMatch domainName rr value) = pre ++ post ∧
      ((post = [] ∧ ∃ s2, DeleteAndPresent (traced c) action domainName rr value (s, log) =
          (none, (s2, log ++ ⟨.Describe ⟨domainName, rr, recordTypeTxt⟩, true⟩ ::
            pre.map deleted))) ∨
       (∃ r rest e s2, post = r :: rest ∧
          DeleteAndPresent (traced c) action domainName rr value (s, log) =
            (some (Wrap e
              ("DeleteDomainRecord domain(" ++ domainName ++ ") record(" ++ rr ++ ") failed")),
              (s2, log ++ ⟨.Describe ⟨domainName, rr, recordTypeTxt⟩, true⟩ ::
                (pre.map deleted ++ [⟨.Delete ⟨r.RecordId⟩, false⟩]))))) := by
  obtain ⟨pre, post, hf, hc⟩ := rangeLoop_cleanup_trace c action domainName rr value h records s1
    (log ++ [⟨.Describe ⟨domainName, rr, recordTypeTxt⟩, true⟩])
  refine ⟨pre, post, hf, ?_⟩
  rcases hc with ⟨hp, s2, hx⟩ | ⟨r, rest, e, s2, hp, hx⟩
  · refine Or.inl ⟨hp, s2, ?_⟩
    simp [DeleteAndPresent, traced_describe, hq, succeeded_ok, hx, h]
  · refine Or.inr ⟨r, rest, e, s2, hp, ?_⟩
    simp [DeleteAndPresent, traced_describe, hq, succeeded_ok, hx]

/-- For an action other than `"Present"` every call is the listing query or
the delete of a listed record that matches exactly. -/
theorem DeleteAndPresent_cleanup_calls {σ : Type} (c : Client σ)
    (action domainName rr value : String) (h : action ≠ "Present") (s : σ) :
    ∀ e ∈ (DeleteAndPresent (traced c) action domainName rr value (s, [])).2.2,
      e.call = .Describe ⟨domainName, rr, recordTypeTxt⟩ ∨
      ∃ records s1 r, c.DescribeDomainRecords ⟨domainName, rr, recordTypeTxt⟩ s = (.ok records, s1) ∧
        r ∈ records ∧ exactMatch domainName rr value r = true ∧ e.call = .Delete ⟨r.RecordId⟩ := by
  intro e he
  rcases hq : c.DescribeDomainRecords ⟨domainName, rr, recordTypeTxt⟩ s with ⟨res, s1⟩
  cases res with
  | error err =>
    rw [DeleteAndPresent_describe_error c action domainName rr value s s1 [] err hq] at he
    simp at he
    exact Or.inl (by rw [he])
  | ok records =>
    obtain ⟨pre, post, hf, hc⟩ :=
      DeleteAndPresent_cleanup_trace c action domainName rr value h s s1 [] records hq
    have hmem : ∀ r, r ∈ pre ∨ r ∈ post → r ∈ records ∧ exactMatch domainName rr value r = true := by
      intro r hr
      have : r ∈ records.filter (exactMatch domainName rr value) := by
        rw [hf]; exact List.mem_append.mpr hr
      simpa [List.mem_filter] using this
    rcases hc with ⟨_, s2, hx⟩ | ⟨r, rest, err, s2, hp, hx⟩
    · rw [hx] at he
      simp only [List.nil_append, List.mem_cons, List.mem_map] at he
      rcases he with he | ⟨r, hr, he⟩
      · exact Or.inl (by rw [he])
      · exact Or.inr ⟨records, s1, r, rfl, (hmem r (Or.inl hr)).1, (hmem r (Or.inl hr)).2,
          by rw [← he]; rfl⟩
    · rw [hx] at he
      simp only [List.nil_append, List.mem_cons, List.mem_append, List.mem_map,
        List.not_mem_nil, or_false] at he
      rcases he with he | ⟨r2, hr, he⟩ | he
      · exact Or.inl (by rw [he])
      · exact Or.inr ⟨records, s1, r2, rfl, (hmem r2 (Or.inl hr)).1, (hmem r2 (Or.inl hr)).2,
          by rw [← he]; rfl⟩
      · have hr : r ∈ post := by rw [hp]; exact List.mem_cons_self _ _
        exact Or.inr ⟨records, s1, r, rfl, (hmem r (Or.inr hr)).1, (hmem r (Or.inr hr)).2,
          by rw [he]⟩

/-- For an action other than `"Present"`, when the listing query and every
further call succeed, the result is `nil` and the calls are the query and one
delete for each exact match, in the order of the list. -/
theorem DeleteAndPresent_cleanup_all_ok {σ : Type} (c : Client σ)
    (action domainName rr value : String) (h : action ≠ "Present")
    (s s1 : σ) (records : List Record)
    (hq : c.DescribeDomainRecords ⟨domainName, rr, recordTypeTxt⟩ s = (.ok records, s1))
    (hok : ∀ e ∈ (DeleteAndPresent (traced c) action domainName rr value (s, [])).2.2,
      e.ok = true) :
    (DeleteAndPresent (traced c) action domainName rr value (s, [])).1 = none ∧
    (DeleteAndPresent (traced c) action domainName rr value (s, [])).2.2 =
      ⟨.Describe ⟨domainName, rr, recordTypeTxt⟩, true⟩ ::
        (records.filter (exactMatch domainName rr value)).map deleted := by
  obtain ⟨pre, post, hf, hc⟩ :=
    DeleteAndPresent_cleanup_trace c action domainName rr value h s s1 [] records hq
  rcases hc with ⟨hp, s2, hx⟩ | ⟨r, rest, err, s2, hp, hx⟩
  · rw [hx, hf, hp]
    simp
  · exfalso
    rw [hx] at hok
    have := hok ⟨.Delete ⟨r.RecordId⟩, false⟩ (by simp)
    simp at this

/-! ## Present and CleanUp over an arbitrary client -/

/-- C3: when the listing query returns `records`, `DeleteAndPresent "Present"`
issues, if no returned record has `(DomainName, RR, Value) = (zone, rr, value)`,
exactly the listing query followed by one `AddDomainRecord` with
`DomainName = zone`, `RR = rr`, `Type = "TXT"`, `Value = value`, and no
delete; if some returned record matches exactly, it issues the listing query
alone and returns `nil`. -/
theorem present_adds_iff_no_exact_match {σ : Type} (c : Client σ)
    (zone rr value : String) (s s1 : σ) (records : List Record)
    (hq : c.DescribeDomainRecords ⟨zone, rr, "TXT"⟩ s = (.ok records, s1)) :
    ((∀ r ∈ records, ¬ (r.DomainName = zone ∧ r.RR = rr ∧ r.Value = value)) →
      (DeleteAndPresent (traced c) "Present" zone rr value (s, [])).2.2 =
        [⟨.Describe ⟨zone, rr, "TXT"⟩, true⟩,
         ⟨.Add ⟨zone, rr, "TXT", value⟩,
           succeeded (c.AddDomainRecord ⟨zone, rr, "TXT", value⟩ s1).1⟩]) ∧
    ((∃ r ∈ records, r.DomainName = zone ∧ r.RR = rr ∧ r.Value = value) →
      (DeleteAndPresent (traced c) "Present" zone rr value (s, [])).1 = none ∧
      (DeleteAndPresent (traced c) "Present" zone rr value (s, [])).2.2 =
        [⟨.Describe ⟨zone, rr, "TXT"⟩, true⟩]) := by
  have hq2 : c.DescribeDomainRecords ⟨zone, rr, recordTypeTxt⟩ s = (.ok records, s1) := hq
  constructor
  · intro hno
    have hm : records.any (exactMatch zone rr value) = false := by
      rw [Bool.eq_false_iff]
      intro hany
      obtain ⟨r, hr, hr2⟩ := List.any_eq_true.mp hany
      exact hno r hr ((exactMatch_iff zone rr value r).mp hr2)
    rw [DeleteAndPresent_present_absent c zone rr value s s1 [] records hq2 hm]
    rfl
  · rintro ⟨r, hr, hr2⟩
    have hm : records.any (exactMatch zone rr value) = true :=
      List.any_eq_true.mpr ⟨r, hr, (exactMatch_iff zone rr value r).mpr hr2⟩
    rw [DeleteAndPresent_present_found c zone rr value s s1 [] records hq2 hm]
    exact ⟨rfl, rfl⟩

/-- C3 on the example record set: listing `_acme-challenge` returns all four
records; `Present` of the new value `new` adds one record; `Present` of the
value `xyz`, which is stored, calls nothing after the listing. -/
theorem present_adds_iff_no_exact_match_witness :
    exampleClient.DescribeDomainRecords ⟨"example.com", "_acme-challenge", "TXT"⟩
        ⟨exampleRecords, 0⟩ = (.ok exampleRecords, ⟨exampleRecords, 1⟩) ∧
    (DeleteAndPresent (traced exampleClient) "Present" "example.com" "_acme-challenge" "new"
        (⟨exampleRecords, 0⟩, [])).2.2 =
      [⟨.Describe ⟨"example.com", "_acme-challenge", "TXT"⟩, true⟩,
       ⟨.Add ⟨"example.com", "_acme-challenge", "TXT", "new"⟩, true⟩] :=
  ⟨by rfl,
   (present_adds_iff_no_exact_match exampleClient "example.com" "_acme-challenge" "new"
      ⟨exampleRecords, 0⟩ ⟨exampleRecords, 1⟩ exampleRecords (by rfl)).1 (by decide)⟩

/-- C2: when the listing query returns `records` and every call of
`DeleteAndPresent "CleanUp"` succeeds, it returns `nil` and its calls are the
listing query followed by one `DeleteDomainRecord`, by `RecordId`, for each
returned record with `(DomainName, RR, Value) = (zone, rr, value)`, in the
order of the list, duplicates included, and nothing else: every delete is for
a returned record that matches exactly (so none is for a record that holds
another value and has an identifier of its own), and no record is created. -/
theorem cleanup_deletes_the_exact_matches {σ : Type} (c : Client σ)
    (zone rr value : String) (s s1 : σ) (records : List Record)
    (hq : c.DescribeDomainRecords ⟨zone, rr, "TXT"⟩ s = (.ok records, s1))
    (hok : ∀ e ∈ (DeleteAndPresent (traced c) "CleanUp" zone rr value (s, [])).2.2,
      e.ok = true) :
    (DeleteAndPresent (traced c) "CleanUp" zone rr value (s, [])).1 = none ∧
    (DeleteAndPresent (traced c) "CleanUp" zone rr value (s, [])).2.2 =
      ⟨.Describe ⟨zone, rr, "TXT"⟩, true⟩ ::
        (records.filter
          (fun r => decide (r.DomainName = zone ∧ r.RR = rr ∧ r.Value = value))).map
          (fun r => ⟨.Delete ⟨r.RecordId⟩, true⟩) ∧
    (∀ e ∈ (DeleteAndPresent (traced c) "CleanUp" zone rr value (s, [])).2.2,
      ∀ req, e.call = .Delete req →
        ∃ r ∈ records, r.RecordId = req.RecordId ∧
          r.DomainName = zone ∧ r.RR = rr ∧ r.Value = value) ∧
    (∀ e ∈ (DeleteAndPresent (traced c) "CleanUp" zone rr value (s, [])).2.2,
      ∀ req, e.call ≠ .Add req) := by
  have hq2 : c.DescribeDomainRecords ⟨zone, rr, recordTypeTxt⟩ s = (.ok records, s1) := hq
  have hne : "CleanUp" ≠ "Present" := by decide
  obtain ⟨h1, h2⟩ := DeleteAndPresent_cleanup_all_ok c "CleanUp" zone rr value hne s s1 records
    hq2 hok
  have hcalls := DeleteAndPresent_cleanup_calls c "CleanUp" zone rr value hne s
  refine ⟨h1, ?_, ?_, ?_⟩
  · rw [h2, exactMatch_eq_decide]
    rfl
  · intro e he req hreq
    rcases hcalls e he with hd | ⟨recs, s1', r, hq3, hr, hm, hcall⟩
    · rw [hd] at hreq; cases hreq
    · rw [hq2] at hq3
      have hrecs : records = recs := by injection hq3 with h3 _; injection h3
      subst hrecs
      rw [hcall] at hreq
      injection hreq with hreq
      exact ⟨r, hr, by rw [← hreq], (exactMatch_iff zone rr value r).mp hm⟩
  · intro e he req hreq
    rcases hcalls e he with hd | ⟨recs, s1', r, _, _, _, hcall⟩
    · rw [hd] at hreq; cases hreq
    · rw [hcall] at hreq; cases hreq

/-- C2 on the example record set: `CleanUp` of `abc` under `_acme-challenge`
deletes the records `1` and `3`, and neither `2` (another value) nor `4`
(another name). -/
theorem cleanup_deletes_the_exact_matches_witness :
    (DeleteAndPresent (traced exampleClient) "CleanUp" "example.com" "_acme-challenge" "abc"
        (⟨exampleRecords, 0⟩, [])).2.2 =
      [⟨.Describe ⟨"example.com", "_acme-challenge", "TXT"⟩, true⟩,
       ⟨.Delete ⟨"1"⟩, true⟩, ⟨.Delete ⟨"3"⟩, true⟩] :=
  (cleanup_deletes_the_exact_matches exampleClient "example.com" "_acme-challenge" "abc"
    ⟨exampleRecords, 0⟩ ⟨exampleRecords, 1⟩ exampleRecords (by rfl) (by decide)).2.1

/-- C10: for an action `a` other than the exact string `"Present"`,
`DeleteAndPresent a` returns the same result, leaves the same provider state
and issues the same calls as `DeleteAndPresent "CleanUp"`; none of its calls
is an `AddDomainRecord`; when the listing query and all further calls succeed
it deletes every exact match; and the solver method `Present`, which forwards
`ch.Action`, issues no `AddDomainRecord` when `ch.Action` is `a`. -/
theorem other_action_is_cleanup {σ : Type} (c : Client σ)
    (a zone rr value : String) (s : σ) (h : a ≠ "Present") :
    DeleteAndPresent (traced c) a zone rr value (s, []) =
      DeleteAndPresent (traced c) "CleanUp" zone rr value (s, []) ∧
    DeleteAndPresent c a zone rr value s = DeleteAndPresent c "CleanUp" zone rr value s ∧
    (∀ e ∈ (DeleteAndPresent (traced c) a zone rr value (s, [])).2.2,
      ∀ req, e.call ≠ .Add req) ∧
    (∀ records s1, c.DescribeDomainRecords ⟨zone, rr, "TXT"⟩ s = (.ok records, s1) →
      (∀ e ∈ (DeleteAndPresent (traced c) a zone rr value (s, [])).2.2, e.ok = true) →
      (DeleteAndPresent (traced c) a zone rr value (s, [])).2.2 =
        ⟨.Describe ⟨zone, rr, "TXT"⟩, true⟩ ::
          (records.filter
            (fun r => decide (r.DomainName = zone ∧ r.RR = rr ∧ r.Value = value))).map
            (fun r => ⟨.Delete ⟨r.RecordId⟩, true⟩)) ∧
    (∀ (initDNSClient : ChallengeRequest → Except String (Client σ)) (ch : ChallengeRequest),
      ch.Action = a →
      ∀ e ∈ (Present (fun x => (initDNSClient x).map traced) ch (s, [])).2.2,
        ∀ req, e.call ≠ .Add req) := by
  refine ⟨DeleteAndPresent_not_present (traced c) a zone rr value (s, []) h,
    DeleteAndPresent_not_present c a zone rr value s h, ?_, ?_, ?_⟩
  · intro e he req hreq
    rcases DeleteAndPresent_cleanup_calls c a zone rr value h s e he with
      hd | ⟨recs, s1', r, _, _, _, hcall⟩
    · rw [hd] at hreq; cases hreq
    · rw [hcall] at hreq; cases hreq
  · intro records s1 hq hok
    have hq2 : c.DescribeDomainRecords ⟨zone, rr, recordTypeTxt⟩ s = (.ok records, s1) := hq
    rw [(DeleteAndPresent_cleanup_all_ok c a zone rr value h s s1 records hq2 hok).2,
      exactMatch_eq_decide]
    rfl
  · intro initDNSClient ch hch e he req hreq
    cases hi : initDNSClient ch with
    | error err => simp [Present, hi, Except.map] at he
    | ok client =>
      have hne : ch.Action ≠ "Present" := by rw [hch]; exact h
      simp only [Present, hi, Except.map] at he
      rcases DeleteAndPresent_cleanup_calls client ch.Action (UnFqdn ch.ResolvedZone)
        (extractRR ch.ResolvedFQDN (UnFqdn ch.ResolvedZone)) ch.Key hne s e he with
        hd | ⟨recs, s1', r, _, _, _, hcall⟩
      · rw [hd] at hreq; cases hreq
      · rw [hcall] at hreq; cases hreq

/-- C10 at the action `"present"` (lower case) on the example record set:
the run equals that of `"CleanUp"`. -/
theorem other_action_is_cleanup_witness :
    "present" ≠ "Present" ∧
    DeleteAndPresent (traced exampleClient) "present" "example.com" "_acme-challenge" "abc"
        (⟨exampleRecords, 0⟩, []) =
      DeleteAndPresent (traced exampleClient) "CleanUp" "example.com" "_acme-challenge" "abc"
        (⟨exampleRecords, 0⟩, []) :=
  ⟨by decide,
   (other_action_is_cleanup exampleClient "present" "example.com" "_acme-challenge" "abc"
      ⟨exampleRecords, 0⟩ (by decide)).1⟩

/-- The calls of `DeleteAndPresent` are a run of successful calls, followed,
exactly when the result is an error, by one failed call. -/
theorem DeleteAndPresent_trace_shape {σ : Type} (c : Client σ)
    (action domainName rr value : String) (s : σ) :
    ∃ oks : List Event, (∀ e ∈ oks, e.ok = true) ∧
      (((DeleteAndPresent (traced c) action domainName rr value (s, [])).1 = none ∧
        (DeleteAndPresent (traced c) action domainName rr value (s, [])).2.2 = oks) ∨
       (∃ e, e.ok = false ∧
        (DeleteAndPresent (traced c) action domainName rr value (s, [])).1 ≠ none ∧
        (DeleteAndPresent (traced c) action domainName rr value (s, [])).2.2 = oks ++ [e])) := by
  rcases hq : c.DescribeDomainRecords ⟨domainName, rr, recordTypeTxt⟩ s with ⟨res, s1⟩
  cases res with
  | error err =>
    rw [DeleteAndPresent_describe_error c action domainName rr value s s1 [] err hq]
    exact ⟨[], by simp,
      Or.inr ⟨⟨.Describe ⟨domainName, rr, recordTypeTxt⟩, false⟩, rfl, by simp, by simp⟩⟩
  | ok records =>
    by_cases ha : action = "Present"
    · subst ha
      cases hm : records.any (exactMatch domainName rr value) with
      | true =>
        rw [DeleteAndPresent_present_found c domainName rr value s s1 [] records hq hm]
        exact ⟨_, by simp, Or.inl ⟨rfl, rfl⟩⟩
      | false =>
        rw [DeleteAndPresent_present_absent c domainName rr value s s1 [] records hq hm]
        rcases c.AddDomainRecord ⟨domainName, rr, recordTypeTxt, value⟩ s1 with ⟨res, s3⟩
        cases res with
        | error err =>
          exact ⟨[⟨.Describe ⟨domainName, rr, recordTypeTxt⟩, true⟩], by simp,
            Or.inr ⟨⟨.Add ⟨domainName, rr, recordTypeTxt, value⟩, false⟩, rfl, by simp,
              by simp [succeeded_error]⟩⟩
        | ok u =>
          exact ⟨_, by simp [succeeded_ok], Or.inl ⟨rfl, rfl⟩⟩
    · obtain ⟨pre, post, _, hc⟩ :=
        DeleteAndPresent_cleanup_trace c action domainName rr value ha s s1 [] records hq
      rcases hc with ⟨_, s2, hx⟩ | ⟨r, rest, err, s2, _, hx⟩
      · rw [hx]
        exact ⟨_, by simp [deleted], Or.inl ⟨rfl, rfl⟩⟩
      · rw [hx]
        exact ⟨⟨.Describe ⟨domainName, rr, recordTypeTxt⟩, true⟩ :: pre.map deleted,
          by simp [deleted], Or.inr ⟨⟨.Delete ⟨r.RecordId⟩, false⟩, rfl, by simp, by simp⟩⟩

/-! ## The reconciler over the record-set provider -/

theorem store_describe_ok (q : DescribeDomainRecordsRequest → Record → Bool)
    (fresh : List Record → String) (fault : Nat → Option String)
    (req : DescribeDomainRecordsRequest) (s : Store) (h : fault s.calls = none) :
    (storeClient q fresh fault).DescribeDomainRecords req s =
      (.ok (s.records.filter (q req)), ⟨s.records, s.calls + 1⟩) := by
  simp [storeClient, h]

theorem store_describe_error (q : DescribeDomainRecordsRequest → Record → Bool)
    (fresh : List Record → String) (fault : Nat → Option String)
    (req : DescribeDomainRecordsRequest) (s : Store) (e : String) (h : fault s.calls = some e) :
    (storeClient q fresh fault).DescribeDomainRecords req s =
      (.error e, ⟨s.records, s.calls + 1⟩) := by
  simp [storeClient, h]

theorem store_delete_ok (q : DescribeDomainRecordsRequest → Record → Bool)
    (fresh : List Record → String) (fault : Nat → Option String)
    (req : DeleteDomainRecordRequest) (s : Store) (h : fault s.calls = none) :
    (storeClient q fresh fault).DeleteDomainRecord req s =
      (.ok (), ⟨s.records.filter (fun r => r.RecordId ≠ req.RecordId), s.calls + 1⟩) := by
  simp [storeClient, h]

theorem store_delete_error (q : DescribeDomainRecordsRequest → Record → Bool)
    (fresh : List Record → String) (fault : Nat → Option String)
    (req : DeleteDomainRecordRequest) (s : Store) (e : String) (h : fault s.calls = some e) :
    (storeClient q fresh fault).DeleteDomainRecord req s =
      (.error e, ⟨s.records, s.calls + 1⟩) := by
  simp [storeClient, h]

theorem store_add_ok (q : DescribeDomainRecordsRequest → Record → Bool)
    (fresh : List Record → String) (fault : Nat → Option String)
    (req : AddDomainRecordRequest) (s : Store) (h : fault s.calls = none) :
    (storeClient q fresh fault).AddDomainRecord req s =
      (.ok (fresh s.records),
        ⟨s.records ++ [⟨fresh s.records, req.DomainName, req.RR, req.Value⟩], s.calls + 1⟩) := by
  simp [storeClient, h]

theorem store_add_error (q : DescribeDomainRecordsRequest → Record → Bool)
    (fresh : List Record → String) (fault : Nat → Option String)
    (req : AddDomainRecordRequest) (s : Store) (e : String) (h : fault s.calls = some e) :
    (storeClient q fresh fault).AddDomainRecord req s =
      (.error e, ⟨s.records, s.calls + 1⟩) := by
  simp [storeClient, h]

/-- The loop over the record-set provider, for an action other than
`"Present"`: when it runs to the end, the stored records are those whose
identifier is not that of a listed exact match; a `return` carries an error. -/
theorem store_rangeLoop_cleanup (q : DescribeDomainRecordsRequest → Record → Bool)
    (fresh : List Record → String) (fault : Nat → Option String)
    (action domainName rr value : String) (h : action ≠ "Present") :
    ∀ (records : List Record) (s : Store),
      (∃ s2, rangeLoop (storeClient q fresh fault) action domainName rr value records s =
          .done s2 ∧
        s2.records = s.records.filter (fun r =>
          r.RecordId ∉ (records.filter (exactMatch domainName rr value)).map (·.RecordId))) ∨
      (∃ e s2, rangeLoop (storeClient q fresh fault) action domainName rr value records s =
          .returned (some e) s2) := by
  intro records
  induction records with
  | nil => intro s; exact Or.inl ⟨s, by simp [rangeLoop], by simp⟩
  | cons v rest ih =>
    intro s
    cases hm : exactMatch domainName rr value v with
    | false =>
      rcases ih s with ⟨s2, hx, hr⟩ | ⟨e, s2, hx⟩
      · exact Or.inl ⟨s2, by simp [rangeLoop, hm, hx], by simp [List.filter_cons, hm, hr]⟩
      · exact Or.inr ⟨e, s2, by simp [rangeLoop, hm, hx]⟩
    | true =>
      cases hf : fault s.calls with
      | some e =>
        refine Or.inr ⟨Wrap e
          ("DeleteDomainRecord domain(" ++ domainName ++ ") record(" ++ rr ++ ") failed"),
          ⟨s.records, s.calls + 1⟩, ?_⟩
        simp only [rangeLoop, hm, h, if_true, if_false,
          store_delete_error q fresh fault ⟨v.RecordId⟩ s e hf]
      | none =>
        have hstep : rangeLoop (storeClient q fresh fault) action domainName rr value
            (v :: rest) s =
            rangeLoop (storeClient q fresh fault) action domainName rr value rest
              ⟨s.records.filter (fun r => r.RecordId ≠ v.RecordId), s.calls + 1⟩ := by
          simp only [rangeLoop, hm, h, if_true, if_false,
            store_delete_ok q fresh fault ⟨v.RecordId⟩ s hf]
        rcases ih ⟨s.records.filter (fun r => r.RecordId ≠ v.RecordId), s.calls + 1⟩ with
          ⟨s2, hx, hr⟩ | ⟨e, s2, hx⟩
        · refine Or.inl ⟨s2, by rw [hstep, hx], ?_⟩
          rw [hr]
          simp only [List.filter_filter, List.filter_cons, hm, if_true, List.map_cons,
            List.mem_cons, not_or]
          congr 1
          funext r
          simp [Bool.and_comm]
        · exact Or.inr ⟨e, s2, by rw [hstep, hx]⟩

/-- A successful `"Present"` over the record-set provider: either a listed
record matches exactly and the record set is unchanged, or no listed record
does and one record `(domainName, rr, value)` is appended. -/
theorem store_present_ok (q : DescribeDomainRecordsRequest → Record → Bool)
    (fresh : List Record → String) (fault : Nat → Option String)
    (domainName rr value : String) (s : Store)
    (h : (DeleteAndPresent (storeClient q fresh fault) "Present" domainName rr value s).1
      = none) :
    ((∃ r ∈ s.records, q ⟨domainName, rr, recordTypeTxt⟩ r = true ∧
        exactMatch domainName rr value r = true) ∧
      (DeleteAndPresent (storeClient q fresh fault) "Present" domainName rr value s).2.records
        = s.records) ∨
    ((∀ r ∈ s.records, q ⟨domainName, rr, recordTypeTxt⟩ r = true →
        exactMatch domainName rr value r = false) ∧
      (DeleteAndPresent (storeClient q fresh fault) "Present" domainName rr value s).2.records
        = s.records ++ [⟨fresh s.records, domainName, rr, value⟩]) := by
  cases hf : fault s.calls with
  | some e =>
    simp [DeleteAndPresent, store_describe_error q fresh fault _ s e hf] at h
  | none =>
    cases hm : (s.records.filter (q ⟨domainName, rr, recordTypeTxt⟩)).any
        (exactMatch domainName rr value) with
    | true =>
      left
      obtain ⟨r, hr, hr2⟩ := List.any_eq_true.mp hm
      rw [List.mem_filter] at hr
      refine ⟨⟨r, hr.1, hr.2, hr2⟩, ?_⟩
      simp [DeleteAndPresent, store_describe_ok q fresh fault _ s hf, rangeLoop_present, hm]
    | false =>
      right
      have hno : ∀ r ∈ s.records, q ⟨domainName, rr, recordTypeTxt⟩ r = true →
          exactMatch domainName rr value r = false := by
        intro r hr hq
        cases hx : exactMatch domainName rr value r with
        | false => rfl
        | true =>
          have : (s.records.filter (q ⟨domainName, rr, recordTypeTxt⟩)).any
              (exactMatch domainName rr value) = true :=
            List.any_eq_true.mpr ⟨r, List.mem_filter.mpr ⟨hr, hq⟩, hx⟩
          rw [hm] at this
          cases this
      refine ⟨hno, ?_⟩
      cases hf2 : fault (s.calls + 1) with
      | some e =>
        simp [DeleteAndPresent, store_describe_ok q fresh fault _ s hf, rangeLoop_present, hm,
          store_add_error q fresh fault _ ⟨s.records, s.calls + 1⟩ e hf2] at h
      | none =>
        simp [DeleteAndPresent, store_describe_ok q fresh fault _ s hf, rangeLoop_present, hm,
          store_add_ok q fresh fault _ ⟨s.records, s.calls + 1⟩ hf2]

/-- A successful run, over the record-set provider, for an action other than
`"Present"`: the records left are those whose identifier is not that of a
listed exact match. -/
theorem store_cleanup_ok (q : DescribeDomainRecordsRequest → Record → Bool)
    (fresh : List Record → String) (fault : Nat → Option String)
    (action domainName rr value : String) (ha : action ≠ "Present") (s : Store)
    (h : (DeleteAndPresent (storeClient q fresh fault) action domainName rr value s).1
      = none) :
    (DeleteAndPresent (storeClient q fresh fault) action domainName rr value s).2.records =
      s.records.filter (fun r => r.RecordId ∉
        ((s.records.filter (q ⟨domainName, rr, recordTypeTxt⟩)).filter
          (exactMatch domainName rr value)).map (·.RecordId)) := by
  cases hf : fault s.calls with
  | some e =>
    simp [DeleteAndPresent, store_describe_error q fresh fault _ s e hf] at h
  | none =>
    rcases store_rangeLoop_cleanup q fresh fault action domainName rr value ha
      (s.records.filter (q ⟨domainName, rr, recordTypeTxt⟩)) ⟨s.records, s.calls + 1⟩ with
      ⟨s2, hx, hr⟩ | ⟨e, s2, hx⟩
    · simp only [DeleteAndPresent, store_describe_ok q fresh fault _ s hf, hx, ha, if_false]
      exact hr
    · simp [DeleteAndPresent, store_describe_ok q fresh fault _ s hf, hx] at h

theorem matching_eq (domainName rr value : String) (records : List Record) :
    matching domainName rr value records =
      (records.filter (exactMatch domainName rr value)).length := by
  rw [matching, exactMatch_eq_decide]

theorem matching_eq_zero (domainName rr value : String) (records : List Record) :
    matching domainName rr value records = 0 ↔
      ∀ r ∈ records, exactMatch domainName rr value r = false := by
  rw [matching_eq, List.length_eq_zero, List.filter_eq_nil_iff]
  simp

theorem matching_pos (domainName rr value : String) (records : List Record) (r : Record)
    (hr : r ∈ records) (hm : exactMatch domainName rr value r = true) :
    1 ≤ matching domainName rr value records := by
  rw [matching_eq]
  exact List.length_pos_of_mem (List.mem_filter.mpr ⟨hr, hm⟩)

/-- The keyword filter lets through every record of the queried domain whose
`RR` equals the keyword. -/
theorem keywordFilter_complete (zone rr ty : String) (r : Record)
    (hd : r.DomainName = zone) (hr : r.RR = rr) :
    keywordFilter ⟨zone, rr, ty⟩ r = true := by
  have hidx : Index rr rr ≠ -1 := by
    unfold Index
    cases hl : rr.data with
    | nil => simp [indexFrom]
    | cons c l =>
      have hp : (c :: l).isPrefixOf (c :: l) = true :=
        List.isPrefixOf_iff_prefix.mpr (List.prefix_refl _)
      simp only [indexFrom, hp, if_true]
      omega
  simp [keywordFilter, hd, hr, hidx]

/-- C5, as stated, fails: the example record set holds `abc` under
`_acme-challenge` twice (records `1` and `3`); `Present` of that value
succeeds, and two records with the triple exist afterwards. -/
theorem present_keeps_duplicates :
    ¬ ∀ (q : DescribeDomainRecordsRequest → Record → Bool) (fresh : List Record → String)
        (fault : Nat → Option String) (zone rr value : String) (s : Store),
      (∀ r, r.DomainName = zone → r.RR = rr → q ⟨zone, rr, "TXT"⟩ r = true) →
      (DeleteAndPresent (storeClient q fresh fault) "Present" zone rr value s).1 = none →
      matching zone rr value
        (DeleteAndPresent (storeClient q fresh fault) "Present" zone rr value s).2.records
        = 1 := by
  intro h
  have h1 := h keywordFilter (fun _ => "5") (fun _ => none) "example.com" "_acme-challenge"
    "abc" ⟨exampleRecords, 0⟩
    (fun r hd hr => keywordFilter_complete "example.com" "_acme-challenge" "TXT" r hd hr)
    (by decide)
  revert h1
  decide

/-- C5, amended: over the record-set provider whose listing for `(zone, rr)`
returns at least every stored record of the zone with `RR = rr`, after a
successful `DeleteAndPresent "Present"` the number of records with
`(zone, rr, value)` is the number there was before, or one if there was none:
at least one exists, and exactly one when at most one existed before. -/
theorem present_leaves_at_least_one (q : DescribeDomainRecordsRequest → Record → Bool)
    (fresh : List Record → String) (fault : Nat → Option String)
    (zone rr value : String) (s : Store)
    (hq : ∀ r, r.DomainName = zone → r.RR = rr → q ⟨zone, rr, "TXT"⟩ r = true)
    (h : (DeleteAndPresent (storeClient q fresh fault) "Present" zone rr value s).1 = none) :
    matching zone rr value
      (DeleteAndPresent (storeClient q fresh fault) "Present" zone rr value s).2.records
      = max 1 (matching zone rr value s.records) := by
  rcases store_present_ok q fresh fault zone rr value s h with
    ⟨⟨r, hr, _, hm⟩, hrec⟩ | ⟨hno, hrec⟩
  · rw [hrec]
    have := matching_pos zone rr value s.records r hr hm
    omega
  · have h0 : matching zone rr value s.records = 0 := by
      rw [matching_eq_zero]
      intro r hr
      cases hx : exactMatch zone rr value r with
      | false => rfl
      | true =>
        have hx2 := (exactMatch_iff zone rr value r).mp hx
        have := hno r hr (hq r hx2.1 hx2.2.1)
        rw [hx] at this
        cases this
    rw [hrec, h0, matching_eq, List.filter_append, List.length_append, ← matching_eq, h0]
    simp [exactMatch]

/-- The amended C5 on the example record set: no record holds the value
`new`, and after `Present` of it there is one. -/
theorem present_leaves_at_least_one_witness :
    matching "example.com" "_acme-challenge" "new"
      (DeleteAndPresent exampleClient "Present" "example.com" "_acme-challenge" "new"
        ⟨exampleRecords, 0⟩).2.records = max 1 0 :=
  present_leaves_at_least_one keywordFilter (fun _ => "5") (fun _ => none)
    "example.com" "_acme-challenge" "new" ⟨exampleRecords, 0⟩
    (fun r hd hr => keywordFilter_complete "example.com" "_acme-challenge" "TXT" r hd hr)
    (by decide)

/-- C6, as stated, fails: the store holds the record `5` with the value `xyz`
and the provider gives the identifier `5` to the record that `Present` of the
value `abc` creates; `CleanUp` of `abc` deletes by that identifier, and the
record with `xyz`, which did not match, is no longer stored. -/
theorem present_then_cleanup_shared_identifier :
    ¬ ∀ (q : DescribeDomainRecordsRequest → Record → Bool) (fresh : List Record → String)
        (fault : Nat → Option String) (zone rr value : String) (s : Store),
      (∀ r, r.DomainName = zone → r.RR = rr → q ⟨zone, rr, "TXT"⟩ r = true) →
      (DeleteAndPresent (storeClient q fresh fault) "Present" zone rr value s).1 = none →
      (DeleteAndPresent (storeClient q fresh fault) "CleanUp" zone rr value
        (DeleteAndPresent (storeClient q fresh fault) "Present" zone rr value s).2).1 = none →
      matching zone rr value
        (DeleteAndPresent (storeClient q fresh fault) "CleanUp" zone rr value
          (DeleteAndPresent (storeClient q fresh fault) "Present" zone rr value s).2).2.records
        = 0 ∧
      ∀ r ∈ s.records, ¬ (r.DomainName = zone ∧ r.RR = rr ∧ r.Value = value) →
        r ∈ (DeleteAndPresent (storeClient q fresh fault) "CleanUp" zone rr value
          (DeleteAndPresent (storeClient q fresh fault) "Present" zone rr value s).2).2.records := by
  intro h
  have h1 := (h keywordFilter (fun _ => "5") (fun _ => none) "example.com" "_acme-challenge"
    "abc" ⟨[⟨"5", "example.com", "_acme-challenge", "xyz"⟩], 0⟩
    (fun r hd hr => keywordFilter_complete "example.com" "_acme-challenge" "TXT" r hd hr)
    (by decide) (by decide)).2 ⟨"5", "example.com", "_acme-challenge", "xyz"⟩
    (by decide) (by decide)
  revert h1
  decide

/-- C6, amended: over the record-set provider whose listing for `(zone, rr)`
returns at least every stored record of the zone with `RR = rr`: when
`DeleteAndPresent "Present"` and then `DeleteAndPresent "CleanUp"`, with the
same `(zone, rr, value)`, both return `nil`, no record with `(zone, rr, value)`
is left; and when the identifiers of the stored records are unique and the
identifier the provider gives to a new record is not in use, every record
that did not match before is still stored. -/
theorem present_then_cleanup (q : DescribeDomainRecordsRequest → Record → Bool)
    (fresh : List Record → String) (fault : Nat → Option String)
    (zone rr value : String) (s : Store)
    (hq : ∀ r, r.DomainName = zone → r.RR = rr → q ⟨zone, rr, "TXT"⟩ r = true)
    (h1 : (DeleteAndPresent (storeClient q fresh fault) "Present" zone rr value s).1 = none)
    (h2 : (DeleteAndPresent (storeClient q fresh fault) "CleanUp" zone rr value
      (DeleteAndPresent (storeClient q fresh fault) "Present" zone rr value s).2).1 = none) :
    matching zone rr value
      (DeleteAndPresent (storeClient q fresh fault) "CleanUp" zone rr value
        (DeleteAndPresent (storeClient q fresh fault) "Present" zone rr value s).2).2.records
      = 0 ∧
    ((s.records.map (·.RecordId)).Nodup →
      fresh s.records ∉ s.records.map (·.RecordId) →
      ∀ r ∈ s.records, ¬ (r.DomainName = zone ∧ r.RR = rr ∧ r.Value = value) →
        r ∈ (DeleteAndPresent (storeClient q fresh fault) "CleanUp" zone rr value
          (DeleteAndPresent (storeClient q fresh fault) "Present" zone rr value s).2).2.records) := by
  have hne : "CleanUp" ≠ "Present" := by decide
  have hc := store_cleanup_ok q fresh fault "CleanUp" zone rr value hne _ h2
  have hp := store_present_ok q fresh fault zone rr value s h1
  generalize (DeleteAndPresent (storeClient q fresh fault) "Present" zone rr value s).2 = s1
    at hc hp h2 ⊢
  generalize (DeleteAndPresent (storeClient q fresh fault) "CleanUp" zone rr value s1).2 = s2
    at hc ⊢
  constructor
  · rw [matching_eq_zero]
    intro r hr
    rw [hc, List.mem_filter] at hr
    cases hx : exactMatch zone rr value r with
    | false => rfl
    | true =>
      exfalso
      have hx2 := (exactMatch_iff zone rr value r).mp hx
      have hmem : r.RecordId ∈ ((s1.records.filter (q ⟨zone, rr, recordTypeTxt⟩)).filter
          (exactMatch zone rr value)).map (·.RecordId) :=
        List.mem_map.mpr ⟨r, List.mem_filter.mpr
          ⟨List.mem_filter.mpr ⟨hr.1, hq r hx2.1 hx2.2.1⟩, hx⟩, rfl⟩
      have hr2 := hr.2
      rw [decide_eq_true_eq] at hr2
      exact hr2 hmem
  · intro hids hfresh r hr hnm
    have hsub : ∀ m ∈ s1.records, m ∈ s.records ∨ m = ⟨fresh s.records, zone, rr, value⟩ := by
      intro m hm
      rcases hp with ⟨_, hrec⟩ | ⟨_, hrec⟩
      · rw [hrec] at hm; exact Or.inl hm
      · rw [hrec] at hm; simpa using hm
    have hr1 : r ∈ s1.records := by
      rcases hp with ⟨_, hrec⟩ | ⟨_, hrec⟩
      · rw [hrec]; exact hr
      · rw [hrec]; exact List.mem_append_left _ hr
    rw [hc, List.mem_filter]
    refine ⟨hr1, ?_⟩
    simp only [decide_eq_true_eq]
    intro hmem
    obtain ⟨m, hm, hid⟩ := List.mem_map.mp hmem
    rw [List.mem_filter, List.mem_filter] at hm
    rcases hsub m hm.1.1 with hms | hmn
    · have : m = r := List.inj_on_of_nodup_map hids hms hr hid
      rw [this] at hm
      exact hnm ((exactMatch_iff zone rr value r).mp hm.2)
    · rw [hmn] at hid
      exact hfresh (List.mem_map.mpr ⟨r, hr, hid.symm⟩)

/-- The amended C6 on the example record set, for the value `new`, which is
not stored: `Present` creates the record `5`, `CleanUp` deletes it, no record
with `new` is left, and the four records stored before are all still stored. -/
theorem present_then_cleanup_witness :
    (DeleteAndPresent exampleClient "Present" "example.com" "_acme-challenge" "new"
      ⟨exampleRecords, 0⟩).2.records
      = exampleRecords ++ [⟨"5", "example.com", "_acme-challenge", "new"⟩] ∧
    matching "example.com" "_acme-challenge" "new"
      (DeleteAndPresent exampleClient "CleanUp" "example.com" "_acme-challenge" "new"
        (DeleteAndPresent exampleClient "Present" "example.com" "_acme-challenge" "new"
          ⟨exampleRecords, 0⟩).2).2.records = 0 ∧
    ∀ r ∈ exampleRecords,
      r ∈ (DeleteAndPresent exampleClient "CleanUp" "example.com" "_acme-challenge" "new"
        (DeleteAndPresent exampleClient "Present" "example.com" "_acme-challenge" "new"
          ⟨exampleRecords, 0⟩).2).2.records :=
  have h := present_then_cleanup keywordFilter (fun _ => "5") (fun _ => none)
    "example.com" "_acme-challenge" "new" ⟨exampleRecords, 0⟩
    (fun r hd hr => keywordFilter_complete "example.com" "_acme-challenge" "TXT" r hd hr)
    (by decide) (by decide)
  ⟨by decide, h.1, fun r hr => h.2 (by decide) (by decide) r hr (by
    revert r
    decide)⟩

/-- C1: over the record-set provider whose listing for `(zone, rr)` returns at
least every stored record of the zone with `RR = rr`: after
`DeleteAndPresent "Present"` has returned `nil`, a second call with the same
arguments, all of whose provider calls succeed, returns `nil`, issues the
listing query and nothing else (no `AddDomainRecord`, no
`DeleteDomainRecord`), and leaves the record set unchanged. -/
theorem present_twice (q : DescribeDomainRecordsRequest → Record → Bool)
    (fresh : List Record → String) (fault : Nat → Option String)
    (zone rr value : String) (s : Store)
    (hq : ∀ r, r.DomainName = zone → r.RR = rr → q ⟨zone, rr, "TXT"⟩ r = true)
    (h1 : (DeleteAndPresent (storeClient q fresh fault) "Present" zone rr value s).1 = none)
    (h2 : ∀ e ∈ (DeleteAndPresent (traced (storeClient q fresh fault)) "Present" zone rr value
      ((DeleteAndPresent (storeClient q fresh fault) "Present" zone rr value s).2, [])).2.2,
      e.ok = true) :
    (DeleteAndPresent (traced (storeClient q fresh fault)) "Present" zone rr value
      ((DeleteAndPresent (storeClient q fresh fault) "Present" zone rr value s).2, [])).1
      = none ∧
    (DeleteAndPresent (traced (storeClient q fresh fault)) "Present" zone rr value
      ((DeleteAndPresent (storeClient q fresh fault) "Present" zone rr value s).2, [])).2.2
      = [⟨.Describe ⟨zone, rr, "TXT"⟩, true⟩] ∧
    (DeleteAndPresent (traced (storeClient q fresh fault)) "Present" zone rr value
      ((DeleteAndPresent (storeClient q fresh fault) "Present" zone rr value s).2, [])).2.1.records
      = (DeleteAndPresent (storeClient q fresh fault) "Present" zone rr value s).2.records := by
  have hp := store_present_ok q fresh fault zone rr value s h1
  generalize (DeleteAndPresent (storeClient q fresh fault) "Present" zone rr value s).2 = s1
    at hp h2 ⊢
  have hex : ∃ m ∈ s1.records, q ⟨zone, rr, recordTypeTxt⟩ m = true ∧
      exactMatch zone rr value m = true := by
    rcases hp with ⟨⟨r, hr, hqr, hm⟩, hrec⟩ | ⟨_, hrec⟩
    · exact ⟨r, by rw [hrec]; exact hr, hqr, hm⟩
    · exact ⟨⟨fresh s.records, zone, rr, value⟩, by rw [hrec]; simp, hq _ rfl rfl,
        by simp [exactMatch]⟩
  obtain ⟨m, hm, hqm, hem⟩ := hex
  cases hf : fault s1.calls with
  | some e =>
    exfalso
    rw [DeleteAndPresent_describe_error (storeClient q fresh fault) "Present" zone rr value
      s1 _ [] e (store_describe_error q fresh fault _ s1 e hf)] at h2
    have := h2 ⟨.Describe ⟨zone, rr, recordTypeTxt⟩, false⟩ (by simp)
    simp at this
  | none =>
    have hany : (s1.records.filter (q ⟨zone, rr, recordTypeTxt⟩)).any
        (exactMatch zone rr value) = true :=
      List.any_eq_true.mpr ⟨m, List.mem_filter.mpr ⟨hm, hqm⟩, hem⟩
    rw [DeleteAndPresent_present_found (storeClient q fresh fault) zone rr value s1 _ [] _
      (store_describe_ok q fresh fault _ s1 hf) hany]
    exact ⟨rfl, rfl, rfl⟩

/-- C1 on the example record set: `Present` of the new value `new` adds the
record `5`, and a second `Present` of it calls the listing query alone. -/
theorem present_twice_witness :
    (DeleteAndPresent (traced exampleClient) "Present" "example.com" "_acme-challenge" "new"
      ((DeleteAndPresent exampleClient "Present" "example.com" "_acme-challenge" "new"
        ⟨exampleRecords, 0⟩).2, [])).2.2
      = [⟨.Describe ⟨"example.com", "_acme-challenge", "TXT"⟩, true⟩] ∧
    (DeleteAndPresent exampleClient "Present" "example.com" "_acme-challenge" "new"
        ⟨exampleRecords, 0⟩).2.records
      = exampleRecords ++ [⟨"5", "example.com", "_acme-challenge", "new"⟩] :=
  ⟨(present_twice keywordFilter (fun _ => "5") (fun _ => none)
      "example.com" "_acme-challenge" "new" ⟨exampleRecords, 0⟩
      (fun r hd hr => keywordFilter_complete "example.com" "_acme-challenge" "TXT" r hd hr)
      (by decide) (by decide)).2.1, by decide⟩

/-- The loop over the logging record-set provider, for an action other than
`"Present"`: no record is added, and a record deleted with success during the
loop is not stored when the loop ends, however it ends. -/
theorem store_rangeLoop_deleted (q : DescribeDomainRecordsRequest → Record → Bool)
    (fresh : List Record → String) (fault : Nat → Option String)
    (action domainName rr value : String) (h : action ≠ "Present") :
    ∀ (records : List Record) (s : Store) (log : List Event),
      (∀ r ∈ (rangeLoop (traced (storeClient q fresh fault)) action domainName rr value
          records (s, log)).state.1.records, r ∈ s.records) ∧
      (∀ id, ⟨.Delete ⟨id⟩, true⟩ ∈ (rangeLoop (traced (storeClient q fresh fault)) action
          domainName rr value records (s, log)).state.2 →
        ⟨.Delete ⟨id⟩, true⟩ ∈ log ∨
        ∀ r ∈ (rangeLoop (traced (storeClient q fresh fault)) action domainName rr value
          records (s, log)).state.1.records, r.RecordId ≠ id) := by
  intro records
  induction records with
  | nil =>
    intro s log
    simp only [rangeLoop, LoopExit.state]
    exact ⟨fun r hr => hr, fun id hid => Or.inl hid⟩
  | cons v rest ih =>
    intro s log
    cases hm : exactMatch domainName rr value v with
    | false =>
      have hstep : rangeLoop (traced (storeClient q fresh fault)) action domainName rr value
          (v :: rest) (s, log) =
          rangeLoop (traced (storeClient q fresh fault)) action domainName rr value rest
            (s, log) := by
        simp [rangeLoop, hm]
      rw [hstep]
      exact ih s log
    | true =>
      cases hf : fault s.calls with
      | some e =>
        have hstep : rangeLoop (traced (storeClient q fresh fault)) action domainName rr value
            (v :: rest) (s, log) =
            .returned (some (Wrap e
              ("DeleteDomainRecord domain(" ++ domainName ++ ") record(" ++ rr ++ ") failed")))
              (⟨s.records, s.calls + 1⟩, log ++ [⟨.Delete ⟨v.RecordId⟩, false⟩]) := by
          simp [rangeLoop, hm, h, traced_delete,
            store_delete_error q fresh fault ⟨v.RecordId⟩ s e hf, succeeded_error]
        rw [hstep]
        simp only [LoopExit.state]
        refine ⟨fun r hr => hr, fun id hid => Or.inl ?_⟩
        simpa using hid
      | none =>
        have hstep : rangeLoop (traced (storeClient q fresh fault)) action domainName rr value
            (v :: rest) (s, log) =
            rangeLoop (traced (storeClient q fresh fault)) action domainName rr value rest
              (⟨s.records.filter (fun r => r.RecordId ≠ v.RecordId), s.calls + 1⟩,
                log ++ [⟨.Delete ⟨v.RecordId⟩, true⟩]) := by
          simp [rangeLoop, hm, h, traced_delete,
            store_delete_ok q fresh fault ⟨v.RecordId⟩ s hf, succeeded_ok]
        rw [hstep]
        obtain ⟨hsub, hdel⟩ := ih
          ⟨s.records.filter (fun r => r.RecordId ≠ v.RecordId), s.calls + 1⟩
          (log ++ [⟨.Delete ⟨v.RecordId⟩, true⟩])
        refine ⟨fun r hr => (List.mem_filter.mp (hsub r hr)).1, fun id hid => ?_⟩
        rcases hdel id hid with hl | hgone
        · rcases List.mem_append.mp hl with hl | hl
          · exact Or.inl hl
          · right
            intro r hr
            have hid2 : id = v.RecordId := by simpa using hl
            have := (List.mem_filter.mp (hsub r hr)).2
            rw [hid2]
            simpa using this
        · exact Or.inr hgone

/-- After `DeleteAndPresent` over the record-set provider, whatever the
action and the result, no record is stored whose delete succeeded. -/
theorem store_deleted_stay_deleted (q : DescribeDomainRecordsRequest → Record → Bool)
    (fresh : List Record → String) (fault : Nat → Option String)
    (action domainName rr value : String) (s : Store) (id : String)
    (hid : ⟨.Delete ⟨id⟩, true⟩ ∈ (DeleteAndPresent (traced (storeClient q fresh fault)) action
      domainName rr value (s, [])).2.2) :
    ∀ r ∈ (DeleteAndPresent (traced (storeClient q fresh fault)) action
      domainName rr value (s, [])).2.1.records, r.RecordId ≠ id := by
  cases hf : fault s.calls with
  | some e =>
    rw [DeleteAndPresent_describe_error (storeClient q fresh fault) action domainName rr value
      s _ [] e (store_describe_error q fresh fault _ s e hf)] at hid
    simp at hid
  | none =>
    have hq := store_describe_ok q fresh fault ⟨domainName, rr, recordTypeTxt⟩ s hf
    by_cases ha : action = "Present"
    · subst ha
      cases hm : (s.records.filter (q ⟨domainName, rr, recordTypeTxt⟩)).any
          (exactMatch domainName rr value) with
      | true =>
        rw [DeleteAndPresent_present_found _ domainName rr value s _ [] _ hq hm] at hid
        simp at hid
      | false =>
        rw [DeleteAndPresent_present_absent _ domainName rr value s _ [] _ hq hm] at hid
        simp at hid
    · obtain ⟨hsub, hdel⟩ := store_rangeLoop_deleted q fresh fault action domainName rr value ha
        (s.records.filter (q ⟨domainName, rr, recordTypeTxt⟩)) ⟨s.records, s.calls + 1⟩
        [⟨.Describe ⟨domainName, rr, recordTypeTxt⟩, true⟩]
      have hrun : DeleteAndPresent (traced (storeClient q fresh fault)) action domainName rr
          value (s, []) =
          (match rangeLoop (traced (storeClient q fresh fault)) action domainName rr value
              (s.records.filter (q ⟨domainName, rr, recordTypeTxt⟩))
              (⟨s.records, s.calls + 1⟩, [⟨.Describe ⟨domainName, rr, recordTypeTxt⟩, true⟩]) with
            | .returned err st => (err, st)
            | .done st => (none, st)) := by
        simp only [DeleteAndPresent, traced_describe, hq, succeeded_ok, ha, if_false,
          List.nil_append]
        cases rangeLoop (traced (storeClient q fresh fault)) action domainName rr value
          (s.records.filter (q ⟨domainName, rr, recordTypeTxt⟩))
          (⟨s.records, s.calls + 1⟩, [⟨.Describe ⟨domainName, rr, recordTypeTxt⟩, true⟩]) <;> rfl
      rw [hrun] at hid ⊢
      generalize rangeLoop (traced (storeClient q fresh fault)) action domainName rr value
        (s.records.filter (q ⟨domainName, rr, recordTypeTxt⟩))
        (⟨s.records, s.calls + 1⟩, [⟨.Describe ⟨domainName, rr, recordTypeTxt⟩, true⟩]) = ex
        at hdel hid ⊢
      cases ex with
      | returned err st =>
        simp only [LoopExit.state] at hdel
        rcases hdel id hid with hl | hgone
        · simp at hl
        · exact hgone
      | done st =>
        simp only [LoopExit.state] at hdel
        rcases hdel id hid with hl | hgone
        · simp at hl
        · exact hgone

/-- C7: `DeleteAndPresent` returns an error if and only if one of the
provider calls it issued failed; every call before the last one succeeded, so
a failed call is the last call (after a failed delete there is no further
delete and no create); when the listing query fails it is the only call and
the result is an error; and over the record-set provider a record whose
delete succeeded is not stored at the end, whether or not a later call
failed. -/
theorem abort_on_first_failure {σ : Type} (c : Client σ) (a zone rr value : String) (s : σ) :
    ((DeleteAndPresent (traced c) a zone rr value (s, [])).1 ≠ none ↔
      ∃ e ∈ (DeleteAndPresent (traced c) a zone rr value (s, [])).2.2, e.ok = false) ∧
    (∀ e ∈ (DeleteAndPresent (traced c) a zone rr value (s, [])).2.2.dropLast, e.ok = true) ∧
    (∀ err s1, c.DescribeDomainRecords ⟨zone, rr, "TXT"⟩ s = (.error err, s1) →
      (DeleteAndPresent (traced c) a zone rr value (s, [])).2.2 =
        [⟨.Describe ⟨zone, rr, "TXT"⟩, false⟩] ∧
      (DeleteAndPresent (traced c) a zone rr value (s, [])).1 ≠ none) ∧
    (∀ (q : DescribeDomainRecordsRequest → Record → Bool) (fresh : List Record → String)
        (fault : Nat → Option String) (st : Store) (id : String),
      ⟨.Delete ⟨id⟩, true⟩ ∈ (DeleteAndPresent (traced (storeClient q fresh fault)) a
        zone rr value (st, [])).2.2 →
      ∀ r ∈ (DeleteAndPresent (traced (storeClient q fresh fault)) a
        zone rr value (st, [])).2.1.records, r.RecordId ≠ id) := by
  obtain ⟨oks, hoks, hshape⟩ := DeleteAndPresent_trace_shape c a zone rr value s
  refine ⟨?_, ?_, ?_, ?_⟩
  · rcases hshape with ⟨hnone, htr⟩ | ⟨e, he, hsome, htr⟩
    · constructor
      · intro hne; exact absurd hnone hne
      · rintro ⟨e, hmem, he⟩
        rw [htr] at hmem
        rw [hoks e hmem] at he
        cases he
    · exact ⟨fun _ => ⟨e, by rw [htr]; simp, he⟩, fun _ => hsome⟩
  · rcases hshape with ⟨_, htr⟩ | ⟨e, _, _, htr⟩
    · rw [htr]
      exact fun e he => hoks e (List.mem_of_mem_dropLast he)
    · rw [htr, List.dropLast_concat]
      exact hoks
  · intro err s1 hq
    have hq2 : c.DescribeDomainRecords ⟨zone, rr, recordTypeTxt⟩ s = (.error err, s1) := hq
    rw [DeleteAndPresent_describe_error c a zone rr value s s1 [] err hq2]
    exact ⟨rfl, by simp⟩
  · intro q fresh fault st id hid
    exact store_deleted_stay_deleted q fresh fault a zone rr value st id hid

/-! ## Two calls of `Present` on one solver -/

/-- The two parts of `Present`, taken one after the other with no step of
another call in between, are the method `Present`. -/
theorem interleave_alone {σ : Type}
    (initDNSClient : ChallengeRequest → Except String (Client σ))
    (chA chB : ChallengeRequest) (c : aliDNSProviderSolver σ) (s : σ) :
    (interleave initDNSClient chA chB [false, false] ⟨c, s, .entered, .entered⟩).first =
      .returned (Present initDNSClient chA s).1 ∧
    (interleave initDNSClient chA chB [false, false] ⟨c, s, .entered, .entered⟩).provider =
      (Present initDNSClient chA s).2 := by
  cases hi : initDNSClient chA with
  | error err => simp [interleave, advance, PresentAssign, Present, hi]
  | ok client => simp [interleave, advance, PresentAssign, PresentCall, Present, hi]

/-- When the second call assigns the field between the two parts of the
first, the first call runs `DeleteAndPresent` with the client of the second. -/
theorem interleave_other_client {σ : Type}
    (initDNSClient : ChallengeRequest → Except String (Client σ))
    (chA chB : ChallengeRequest) (clientA clientB : Client σ)
    (c : aliDNSProviderSolver σ) (s : σ)
    (hA : initDNSClient chA = .ok clientA) (hB : initDNSClient chB = .ok clientB) :
    (interleave initDNSClient chA chB [false, true, false] ⟨c, s, .entered, .entered⟩).first =
      .returned (DeleteAndPresent clientB chA.Action (UnFqdn chA.ResolvedZone)
        (extractRR chA.ResolvedFQDN (UnFqdn chA.ResolvedZone)) chA.Key s).1 ∧
    (interleave initDNSClient chA chB [false, true, false] ⟨c, s, .entered, .entered⟩).provider =
      (DeleteAndPresent clientB chA.Action (UnFqdn chA.ResolvedZone)
        (extractRR chA.ResolvedFQDN (UnFqdn chA.ResolvedZone)) chA.Key s).2 := by
  simp [interleave, advance, PresentAssign, PresentCall, hA, hB]

/-- C9, at the failing input: two calls of `Present` on one solver, for the
values `v1` and `v2` under `_acme-challenge` in `example.com`, the first with
the credentials of one account and the second with those of another. Taken
one after the other, each call writes its record to its own account. In the
order first part of A, first part of B, second part of A, second part of B,
both calls return `nil`, yet the account of A holds no record with `v1`: both
records are in the account of B, because A called through the field that B
had assigned in between. -/
theorem present_calls_share_the_client :
    (interleave twoAccounts requestA requestB [false, false, true, true] takeoff).first
      = .returned none ∧
    (interleave twoAccounts requestA requestB [false, false, true, true] takeoff).second
      = .returned none ∧
    (interleave twoAccounts requestA requestB [false, false, true, true] takeoff).provider.1.records
      = [⟨"1", "example.com", "_acme-challenge", "v1"⟩] ∧
    (interleave twoAccounts requestA requestB [false, false, true, true] takeoff).provider.2.records
      = [⟨"1", "example.com", "_acme-challenge", "v2"⟩] ∧
    (interleave twoAccounts requestA requestB [false, true, false, true] takeoff).first
      = .returned none ∧
    (interleave twoAccounts requestA requestB [false, true, false, true] takeoff).second
      = .returned none ∧
    matching "example.com" "_acme-challenge" "v1"
      (interleave twoAccounts requestA requestB [false, true, false, true] takeoff).provider.1.records
      = 0 ∧
    (interleave twoAccounts requestA requestB [false, true, false, true] takeoff).provider.2.records
      = [⟨"1", "example.com", "_acme-challenge", "v1"⟩,
         ⟨"2", "example.com", "_acme-challenge", "v2"⟩] := by
  decide

/-! ## Name resolution -/

/-- When the pattern occurs nowhere in the text, `indexFrom` answers `-1`. -/
theorem indexFrom_absent (substr : List Char) :
    ∀ (s : List Char) (i : Nat), ¬ substr <:+: s → indexFrom substr s i = -1 := by
  intro s
  induction s with
  | nil =>
    intro i h
    have hne : substr ≠ [] := by
      intro he
      exact h (he ▸ List.infix_refl _)
    simp [indexFrom, hne]
  | cons c s ih =>
    intro i h
    have hp : substr.isPrefixOf (c :: s) = false := by
      cases hb : substr.isPrefixOf (c :: s) with
      | false => rfl
      | true => exact absurd (List.isPrefixOf_iff_prefix.mp hb).isInfix h
    have hs : ¬ substr <:+: s := fun hi => h (hi.trans (List.suffix_cons c s).isInfix)
    simp only [indexFrom, hp]
    exact ih (i + 1) hs

/-- An answer of `indexFrom` other than `-1` is `i + k` for the first position
`k` at which the pattern starts. -/
theorem indexFrom_found (substr : List Char) :
    ∀ (s : List Char) (i : Nat), substr <:+: s →
      ∃ k, indexFrom substr s i = ((i + k : Nat) : Int) ∧ substr <+: s.drop k ∧
        ∀ j, j < k → ¬ substr <+: s.drop j := by
  intro s
  induction s with
  | nil =>
    intro i h
    have he : substr = [] := List.eq_nil_of_infix_nil h
    exact ⟨0, by simp [indexFrom, he], by simp [he], by intro j hj; omega⟩
  | cons c s ih =>
    intro i h
    cases hb : substr.isPrefixOf (c :: s) with
    | true =>
      exact ⟨0, by simp [indexFrom, hb], by simpa using List.isPrefixOf_iff_prefix.mp hb,
        by intro j hj; omega⟩
    | false =>
      have hnp : ¬ substr <+: c :: s := fun hp => by
        have := List.isPrefixOf_iff_prefix.mpr hp
        simp [hb] at this
      have hs : substr <:+: s := by
        rcases List.infix_cons_iff.mp h with hp | hi
        · exact absurd hp hnp
        · exact hi
      obtain ⟨k, hk, hpre, hmin⟩ := ih (i + 1) hs
      refine ⟨k + 1, ?_, by simpa using hpre, ?_⟩
      · have hstep : indexFrom substr (c :: s) i = indexFrom substr s (i + 1) := by
          simp [indexFrom, hb]
        rw [hstep, hk]
        congr 1
        omega
      · intro j hj
        cases j with
        | zero => simpa using hnp
        | succ j => simpa using hmin j (by omega)

/-- What `extractRR` computes: the normalized name cut at the first
occurrence of `"." ++ domain`, or the whole normalized name when there is
no occurrence. -/
theorem extractRR_eq (fqdn domain : String) :
    (¬ ("." ++ domain).data <:+: (UnFqdn fqdn).data → extractRR fqdn domain = UnFqdn fqdn) ∧
    (("." ++ domain).data <:+: (UnFqdn fqdn).data →
      ∃ k, extractRR fqdn domain = ⟨(UnFqdn fqdn).data.take k⟩ ∧
        ("." ++ domain).data <+: (UnFqdn fqdn).data.drop k ∧
        ∀ j, j < k → ¬ ("." ++ domain).data <+: (UnFqdn fqdn).data.drop j) := by
  constructor
  · intro h
    have hi := indexFrom_absent _ _ 0 h
    simp only [extractRR, Index, hi, ne_eq, not_true_eq_false, if_false]
  · intro h
    obtain ⟨k, hk, hpre, hmin⟩ := indexFrom_found _ _ 0 h
    refine ⟨k, ?_, hpre, hmin⟩
    have hne : indexFrom ("." ++ domain).data (UnFqdn fqdn).data 0 ≠ -1 := by
      rw [hk]; omega
    simp only [extractRR, Index, ne_eq, hne, not_false_eq_true, if_true]
    rw [hk]
    simp

/-- The two examples of the name resolution: `_acme-challenge` and
`_acme-challenge.sub` under `example.com`, with and without trailing dots. -/
theorem extractRR_examples :
    extractRR "_acme-challenge.example.com." (UnFqdn "example.com.") = "_acme-challenge" ∧
    extractRR "_acme-challenge.sub.example.com" (UnFqdn "example.com")
      = "_acme-challenge.sub" := by
  decide

/-- When the normalized name is `p ++ "." ++ domain` and `"." ++ domain` does
not start at any position inside `p`, `extractRR` returns `p`. -/
theorem extractRR_strips_suffix (fqdn domain p : String)
    (hname : UnFqdn fqdn = p ++ "." ++ domain)
    (hfirst : ∀ j, j < p.length →
      ¬ ("." ++ domain).data <+: (p ++ "." ++ domain).data.drop j) :
    extractRR fqdn domain = p := by
  have hdata : (p ++ "." ++ domain).data = p.data ++ ("." ++ domain).data := by
    simp [String.data_append]
  have hin : ("." ++ domain).data <:+: (UnFqdn fqdn).data := by
    rw [hname, hdata]
    exact (List.suffix_append _ _).isInfix
  obtain ⟨k, hk, hpre, hmin⟩ := (extractRR_eq fqdn domain).2 hin
  rw [hname] at hpre hmin hk
  have hle : k ≤ p.length := by
    by_contra hgt
    refine hmin p.length (by omega) ?_
    rw [hdata]
    have : p.length = p.data.length := rfl
    rw [this, List.drop_left]
  have hge : p.length ≤ k := by
    by_contra hlt
    exact hfirst k (by omega) hpre
  have hkp : k = p.data.length := le_antisymm hle hge
  rw [hk, hdata, hkp, List.take_left]

/-- C4, at the failing input: for the challenge name
`_acme-challenge.example.com.example.co.` in the zone `example.co.`, that is
`p = "_acme-challenge.example.com"` and `z = "example.co."`, the name
resolution of `Present` and `CleanUp` returns `_acme-challenge`, which is not
`p`, and `RR + "." + zone` is not the normalized challenge name: the cut is
made at the first occurrence of `.example.co`, inside `.example.com`. -/
theorem extractRR_cuts_at_first_occurrence :
    extractRR ("_acme-challenge.example.com" ++ "." ++ "example.co.") (UnFqdn "example.co.")
      = "_acme-challenge" ∧
    extractRR ("_acme-challenge.example.com" ++ "." ++ "example.co.") (UnFqdn "example.co.")
      ≠ "_acme-challenge.example.com" ∧
    extractRR ("_acme-challenge.example.com" ++ "." ++ "example.co.") (UnFqdn "example.co.")
        ++ "." ++ UnFqdn "example.co."
      ≠ UnFqdn ("_acme-challenge.example.com" ++ "." ++ "example.co.") := by
  decide

/-- C8, as stated, fails: `example.com` is not a suffix of
`a.example.com.evil.org`, yet `extractRR` does not return the normalized name
but `a`, the text before the occurrence of `.example.com` in the middle. -/
theorem extractRR_fallback_not_for_every_non_suffix :
    ¬ ∀ fqdn zone : String,
      ¬ ("." ++ UnFqdn zone).data <:+ (UnFqdn fqdn).data →
        extractRR fqdn (UnFqdn zone) = UnFqdn fqdn := by
  intro h
  have h1 := h "a.example.com.evil.org." "example.com." (by decide)
  revert h1
  decide

/-- C8, amended: if `"." ++ zone` (zone normalized) occurs nowhere in the
normalized fqdn, then `extractRR fqdn (UnFqdn zone)` is the entire normalized
fqdn. -/
theorem extractRR_fallback (fqdn zone : String)
    (h : ¬ ("." ++ UnFqdn zone).data <:+: (UnFqdn fqdn).data) :
    extractRR fqdn (UnFqdn zone) = UnFqdn fqdn :=
  (extractRR_eq fqdn (UnFqdn zone)).1 h

/-- The amended C8 at `("foo.com.", "example.com.")`: the result is `foo.com`. -/
theorem extractRR_fallback_witness :
    ¬ ("." ++ UnFqdn "example.com.").data <:+: (UnFqdn "foo.com.").data ∧
    extractRR "foo.com." (UnFqdn "example.com.") = UnFqdn "foo.com." ∧
    UnFqdn "foo.com." = "foo.com" :=
  ⟨by decide, extractRR_fallback "foo.com." "example.com." (by decide), by decide⟩

end AlidnsWebhook
